import Mathlib

/-!
Shallow embedding of the dokku-dashboard data-source layer
(`app/dokku/client.py`, `app/dokku/models.py`) and proofs about it.

Conventions used throughout:
* Python strings are Lean `String`s; `s.data` is the list of characters.
* Python `needle in hay` (substring test) is `pyIn needle hay`.
* Python `a or b` on strings (first truthy wins) is `pyOrStr a b`.
* Python `s.split(sep, 1)` for a one-character separator is `splitFirst`.
* Python `s.split(sep)` for a one-character separator is `splitOnChar`.
* Python `s.split()` (whitespace runs, no empties) is `pySplit`.
* `asyncio.wait_for` either completes or raises `TimeoutError`; the
  embedding passes a boolean `timedOut` saying which happened, and models
  an uncaught exception as an explicit non-`ok` result constructor.
-/

namespace DokkuDashboard

/-- Substring test on character lists: Python `needle in hay`. -/
def containsSub (needle : List Char) : List Char → Bool
  | [] => needle.isEmpty
  | c :: cs => needle.isPrefixOf (c :: cs) || containsSub needle cs

/-- Python `needle in hay` for strings. -/
def pyIn (needle hay : String) : Bool :=
  containsSub needle.data hay.data

/-- Python `a or b` for strings: `b` if `a` is empty, else `a`. -/
def pyOrStr (a b : String) : String :=
  if a = "" then b else a

/-- Python `s.split(sep, 1)` on a one-character separator: `none` when the
separator does not occur (Python would return the one-element list `[s]`),
`some (before, after)` when it does. -/
def splitFirst (sep : Char) : List Char → Option (List Char × List Char)
  | [] => none
  | c :: cs =>
    if c = sep then some ([], cs)
    else
      match splitFirst sep cs with
      | none => none
      | some (a, b) => some (c :: a, b)

/-- Python `s.split(sep)` on a one-character separator (keeps empty parts). -/
def splitOnChar (sep : Char) : List Char → List (List Char)
  | [] => [[]]
  | c :: cs =>
    if c = sep then [] :: splitOnChar sep cs
    else
      match splitOnChar sep cs with
      | [] => [[c]]
      | h :: t => (c :: h) :: t

/-- Like `splitOnChar`, with a character-class separator. -/
def splitPred (p : Char → Bool) : List Char → List (List Char)
  | [] => [[]]
  | c :: cs =>
    if p c then [] :: splitPred p cs
    else
      match splitPred p cs with
      | [] => [[c]]
      | h :: t => (c :: h) :: t

/-- Python `s.split("\n")`. -/
def splitLines (s : String) : List String :=
  (splitOnChar '\n' s.data).map List.asString

/-- Python `s.strip()`: drop leading and trailing whitespace. -/
def pyStrip (s : String) : String :=
  (((s.data.dropWhile Char.isWhitespace).reverse.dropWhile
      Char.isWhitespace).reverse).asString

/-- Python `s.lower()` (ASCII case folding suffices here). -/
def pyLower (s : String) : String :=
  (s.data.map Char.toLower).asString

/-- Python `s.startswith(pre)`. -/
def pyStartsWith (s pre : String) : Bool :=
  pre.data.isPrefixOf s.data

/-- Python `s.split()`: split on whitespace runs, dropping empty tokens. -/
def pySplit (s : String) : List String :=
  ((splitPred Char.isWhitespace s.data).map List.asString).filter (· ≠ "")

/-- Python list comprehension `[x.strip() for x in ls if x.strip()]`. -/
def stripNonEmpty (ls : List String) : List String :=
  ls.filterMap (fun l => if pyStrip l = "" then none else some (pyStrip l))

/-- Python `a < b` on strings: lexicographic comparison of code points. -/
def lexLt : List Char → List Char → Bool
  | [], [] => false
  | [], _ :: _ => true
  | _ :: _, [] => false
  | a :: as, b :: bs =>
    if a = b then lexLt as bs else decide (a < b)

/-- Python `a <= b` on strings. -/
def lexLe (a b : List Char) : Bool :=
  lexLt a b || a == b

/-! ## Data model (`app/dokku/models.py`) -/

/-- `AppStatus` enumeration (models.py lines 7-16). -/
inductive AppStatus where
  | RUNNING
  | STOPPED
  | CRASHED
  | RESTARTING
  | STARTING
  | STOPPING
  | UNKNOWN
deriving DecidableEq, Repr

/-- `App` dataclass (models.py lines 19-34). -/
structure App where
  name : String
  status : AppStatus := .UNKNOWN
  container_count : Nat := 0
  domains : List String := []
  created_at : String := ""
  deploy_source : String := ""
  web_url : String := ""
deriving DecidableEq, Repr

/-- `EnvVar` dataclass (models.py lines 37-43). -/
structure EnvVar where
  key : String
  value : String
  is_sensitive : Bool := false
deriving DecidableEq, Repr

/-- `EnvVar.masked_value` (models.py lines 45-50). -/
def EnvVar.masked_value (e : EnvVar) : String :=
  if e.is_sensitive || e.value.length > 50 then "••••••••"
  else e.value

/-- `Service` dataclass (models.py lines 53-64); only the fields the
masking rule reads are relevant, the rest are carried verbatim. -/
structure Service where
  name : String
  type : String
  version : String
  status : String
  dsn : String
deriving DecidableEq, Repr

/-- `Service.masked_dsn` (models.py lines 66-74): Python checks
`":" in dsn and "@" in dsn`, then `parts = dsn.split("@")`; when
`len(parts) == 2` it returns `"•••••••@" + parts[1]`, otherwise the
fixed placeholder. -/
def Service.masked_dsn (s : Service) : String :=
  if pyIn ":" s.dsn && pyIn "@" s.dsn then
    match (splitOnChar '@' s.dsn.data).map List.asString with
    | [_, after] => "•••••••@" ++ after
    | _ => "••••••••"
  else "••••••••"

/-- `SSLCertificate` dataclass (models.py lines 77-85). -/
structure SSLCertificate where
  app_name : String
  expiry_date : String
  days_until_expiry : Int
  days_until_renewal : Int
  auto_renew : Bool := true
deriving DecidableEq, Repr

/-- `SSLCertificate.status_color` (models.py lines 87-96). -/
def SSLCertificate.status_color (c : SSLCertificate) : String :=
  if c.days_until_expiry > 60 then "green"
  else if c.days_until_expiry > 30 then "yellow"
  else if c.days_until_expiry > 7 then "orange"
  else "red"

/-! ## Remote command runner (`client.py` lines 37-67) -/

/-- Outcome of a call that may let an exception escape to the caller. -/
inductive RunResult where
  | ok (out : String)
  | timeout_raised
deriving DecidableEq, Repr

/-- `DokkuClient.run_fast` (client.py lines 37-58): on completion returns
`stdout.decode() or stderr.decode() or ""`; on `asyncio.TimeoutError` the
handler kills the subprocess and returns `""`. -/
def run_fast (timedOut : Bool) (stdoutDec stderrDec : String) : String :=
  if timedOut then ""
  else pyOrStr stdoutDec (pyOrStr stderrDec "")

/-- `DokkuClient.run` (client.py lines 60-67): returns
`result.stdout or result.stderr or ""` on completion; there is no handler
around `asyncio.wait_for`, so on timeout the `TimeoutError` escapes. -/
def run (timedOut : Bool) (stdoutStr stderrStr : String) : RunResult :=
  if timedOut then .timeout_raised
  else .ok (pyOrStr stdoutStr (pyOrStr stderrStr ""))

/-! ## Container-name helper and its callers (`client.py` lines 312-363, 457-461) -/

/-- `DokkuClient._get_container_names` (client.py lines 355-363):
`stdout.decode().strip().split("\n")`. -/
def _get_container_names (stdoutDec : String) : List String :=
  splitLines (pyStrip stdoutDec)

/-- The guard in `DokkuClient._logs_stream_docker` (client.py line 460) and
`_logs_recent_docker` (line 485): `if not containers or not containers[0]:
return` — true when the call returns early without streaming. -/
def logs_stream_early_return (containers : List String) : Bool :=
  match containers with
  | [] => true
  | c :: _ => c == ""

/-- Argument vector built by `DokkuClient._app_start_docker`
(client.py lines 312-321): `"docker", "start", *container_names`. -/
def _app_start_docker_argv (containers : List String) : List String :=
  "docker" :: "start" :: containers

/-! ## Output parsers (`client.py` lines 497-525) -/

/-- `DokkuClient._parse_domains` (client.py lines 497-507): for every line
containing `"Domains app vhosts:"`, `parts = line.split(":", 1)`; when there
is a colon, `domains` is reassigned to the whitespace-split, stripped,
non-empty tokens of `parts[1].strip()`; the last matching line wins. -/
def _parse_domains (output : String) : List String :=
  (splitLines output).foldl
    (fun domains line =>
      if pyIn "Domains app vhosts:" line then
        match splitFirst ':' line.data with
        | some (_, rest) =>
          let domain_str := pyStrip (List.asString rest)
          (pySplit domain_str).filterMap
            (fun d => if pyStrip d = "" then none else some (pyStrip d))
        | none => domains
      else domains)
    []

/-- Digits of a decimal numeral folded into a `Nat`. -/
def natOfDigits (ds : List Char) : Nat :=
  ds.foldl (fun n c => 10 * n + (c.toNat - '0'.toNat)) 0

/-- Python `re.search(r"(\d+)", line)`: the first maximal digit run, as a
number, when one exists. -/
def firstNat? : List Char → Option Nat
  | [] => none
  | c :: cs =>
    if c.isDigit then some (natOfDigits (c :: cs.takeWhile Char.isDigit))
    else firstNat? cs

/-- `DokkuClient._parse_container_count` (client.py lines 509-516): the
first line containing `"Processes:"` or `"Running:"` whose text has an
integer yields that integer; default 0. -/
def _parse_container_count (output : String) : Nat :=
  go (splitLines output)
where
  go : List String → Nat
    | [] => 0
    | line :: rest =>
      if pyIn "Processes:" line || pyIn "Running:" line then
        match firstNat? line.data with
        | some n => n
        | none => go rest
      else go rest

/-- `DokkuClient._parse_deploy_source` (client.py lines 518-525): the first
line containing `"Git deploy branch:"` yields the trimmed remainder after
the first colon; default `"unknown"`. -/
def _parse_deploy_source (output : String) : String :=
  go (splitLines output)
where
  go : List String → String
    | [] => "unknown"
    | line :: rest =>
      if pyIn "Git deploy branch:" line then
        match splitFirst ':' line.data with
        | some (_, tail) => pyStrip (List.asString tail)
        | none => go rest
      else go rest

/-! ## Config listing (`client.py` lines 365-397) -/

/-- The fixed sensitive-keyword set (client.py lines 374 and 530). -/
def sensitive_keys : List String :=
  ["password", "secret", "key", "token", "api", "private"]

/-- The `EnvVar` built by `DokkuClient._config_list_docker` for one parsed
`KEY=VALUE` line (client.py lines 390-393): sensitivity is
`any(s in key.lower() for s in sensitive_keys)`. -/
def mkEnvVarDocker (key value : String) : EnvVar :=
  { key := key, value := value,
    is_sensitive := sensitive_keys.any (fun s => pyIn s (pyLower key)) }

/-! ## Config set and shell escaping (`client.py` lines 404-432) -/

/-- `value.replace("'", "'\"'\"'")` (client.py lines 410 and 424), at the
character level: each single quote becomes quote, double-quote, quote,
double-quote, quote. -/
def escapeChars : List Char → List Char
  | [] => []
  | c :: cs =>
    if c = '\x27' then
      '\x27' :: '\x22' :: '\x27' :: '\x22' :: '\x27' :: escapeChars cs
    else c :: escapeChars cs

/-- String form of `escapeChars`. -/
def escapeValue (v : String) : String :=
  (escapeChars v.data).asString

/-- The key-value argument composed by `DokkuClient._config_set_docker`
(client.py line 427): `f"{key}='{escaped_value}'"`. -/
def config_set_docker_arg (key value : String) : String :=
  key ++ "=\x27" ++ escapeValue value ++ "\x27"

/-- The command string composed by `DokkuClient.config_set` for the SSH path
(client.py line 411):
`f"config:set {restart_flag} {app_name} {key}='{escaped_value}'"`. -/
def config_set_ssh_command (restart : Bool) (app_name key value : String) : String :=
  let restart_flag := if restart then "" else "--no-restart"
  "config:set " ++ restart_flag ++ " " ++ app_name ++ " " ++
    key ++ "=\x27" ++ escapeValue value ++ "\x27"

/-- Quoting context of a POSIX shell scanning a word. -/
inductive QMode where
  | unq
  | sq
  | dq
deriving DecidableEq, Repr

/-- POSIX shell quote removal for a single word built only from ordinary
characters, single-quoted segments and double-quoted segments (the only
constructs the composed config-set token contains): the field text the
shell delivers after parsing. -/
def shUnquoteAux : QMode → List Char → List Char
  | _, [] => []
  | .unq, c :: cs =>
    if c = '\x27' then shUnquoteAux .sq cs
    else if c = '\x22' then shUnquoteAux .dq cs
    else c :: shUnquoteAux .unq cs
  | .sq, c :: cs =>
    if c = '\x27' then shUnquoteAux .unq cs
    else c :: shUnquoteAux .sq cs
  | .dq, c :: cs =>
    if c = '\x22' then shUnquoteAux .unq cs
    else c :: shUnquoteAux .dq cs

/-- POSIX shell quote removal on a whole word. -/
def shUnquote (s : String) : String :=
  (shUnquoteAux .unq s.data).asString

/-! ## App constructors on the four read paths
(`client.py` lines 113-171, 179-286) -/

/-- `DokkuClient._app_info_docker` (client.py lines 113-145), as a function
of its external observations: the Docker status, the lines of the VHOST
file (empty list when the file is missing), and the decoded container-list
output. `domains = [line.strip() for line in f if line.strip()]`,
`web_url = f"https://{domains[0]}" if domains else ""`. -/
def _app_info_docker (app_name : String) (status : AppStatus)
    (vhostLines : List String) (containerListOut : String) : App :=
  let domains := stripNonEmpty vhostLines
  { name := app_name
    status := status
    container_count :=
      ((splitLines (pyStrip containerListOut)).filter (· ≠ "")).length
    domains := domains
    deploy_source := "docker"
    web_url := match domains with | [] => "" | d :: _ => "https://" ++ d }

/-- `DokkuClient._app_info_ssh` (client.py lines 147-171), as a function of
the status and the three report outputs it parses. -/
def _app_info_ssh (app_name : String) (status : AppStatus)
    (domains_output ps_output git_output : String) : App :=
  let domains := _parse_domains domains_output
  { name := app_name
    status := status
    container_count := _parse_container_count ps_output
    domains := domains
    deploy_source := _parse_deploy_source git_output
    web_url := match domains with | [] => "" | d :: _ => "https://" ++ d }

/-- `DokkuClient._get_apps_from_ssh` (client.py lines 269-286): skip the
header line, keep stripped non-empty names; each app gets UNKNOWN status,
no domains, and `web_url = f"https://{name}.brewbytes.dev"`. -/
def _get_apps_from_ssh (output : String) : List App :=
  ((splitLines (pyStrip output)).drop 1).filterMap
    (fun line =>
      let name := pyStrip line
      if name = "" then none
      else some { name := name
                  status := .UNKNOWN
                  web_url := "https://" ++ name ++ ".brewbytes.dev" })

/-! ## Docker listing and status aggregation (`client.py` lines 179-267) -/

/-- One decoded line of the `docker ps -a` JSON output (client.py
lines 196-201): the app-name label, the container state, the status text. -/
structure ContainerRecord where
  name : String
  state : String
  status : String
deriving DecidableEq, Repr

/-- State normalisation (client.py lines 199-208): lower-case, detect
`"restarting"` as a substring of state or status text, and map `"created"`
to `"starting"`. -/
def normalize_state (r : ContainerRecord) : String :=
  let state := pyLower r.state
  let status_text := pyLower r.status
  if pyIn "restarting" state || pyIn "restarting" status_text then "restarting"
  else if state = "created" then "starting"
  else state

/-- Association-list lookup for the `app_status` dict. -/
def alistGet? (m : List (String × String)) (k : String) : Option String :=
  (m.find? (fun p => p.1 == k)).map (·.2)

/-- Association-list update for the `app_status` dict. -/
def alistSet : List (String × String) → String → String → List (String × String)
  | [], k, v => [(k, v)]
  | (k0, v0) :: rest, k, v =>
    if k0 = k then (k, v) :: rest
    else (k0, v0) :: alistSet rest k v

/-- One iteration of the aggregation loop (client.py lines 210-218):
`if name not in app_status: app_status[name] = state`, then the
restarting / starting / running overwrite rules. -/
def step_app_status (m : List (String × String)) (r : ContainerRecord) :
    List (String × String) :=
  let state := normalize_state r
  match alistGet? m r.name with
  | none => alistSet m r.name state
  | some cur =>
    if state = "restarting" then alistSet m r.name state
    else if state = "starting" ∧ cur ∉ (["restarting"] : List String) then
      alistSet m r.name state
    else if state = "running" ∧ cur ∉ (["restarting", "starting"] : List String) then
      alistSet m r.name state
    else m

/-- The whole `app_status` dict built from the decoded container records
(client.py lines 195-220). -/
def build_app_status (records : List ContainerRecord) : List (String × String) :=
  records.foldl step_app_status []

/-- Mapping of the aggregated state string to `AppStatus`
(client.py lines 237-247), including the `.get(name, "stopped")` default. -/
def status_of_string (s : String) : AppStatus :=
  if s = "running" then .RUNNING
  else if s = "restarting" then .RESTARTING
  else if s = "starting" then .STARTING
  else if s = "exited" ∨ s = "dead" ∨ s = "stopped" then .STOPPED
  else .UNKNOWN

/-- The status `_get_apps_from_docker` assigns to a directory name
(client.py lines 237-247). -/
def app_status_for (records : List ContainerRecord) (name : String) : AppStatus :=
  status_of_string ((alistGet? (build_app_status records) name).getD "stopped")

/-- The reserved non-application directory names (client.py line 223). -/
def skip_dirs : List String :=
  ["ENV", "VHOST", "tls", "dokkurc", ".basher", ".cache", ".config", ".ssh", ".local"]

/-- `DokkuClient._get_apps_from_docker` (client.py lines 179-267), as a
function of the decoded container records, the directory listing of
`/home/dokku`, and the VHOST file lines of each app (empty when missing):
skip dot-prefixed and reserved names, build each `App`, and return
`sorted(apps, key=lambda a: a.name)` (a stable sort by name, modelled by
insertion sort). -/
def _get_apps_from_docker (records : List ContainerRecord)
    (all_dirs : List String) (vhost : String → List String) : List App :=
  let apps := all_dirs.filterMap
    (fun name =>
      if pyStartsWith name "." ∨ name ∈ skip_dirs then none
      else
        let status := app_status_for records name
        let domains := stripNonEmpty (vhost name)
        some { name := name
               status := status
               domains := domains
               web_url := match domains with | [] => "" | d :: _ => "https://" ++ d })
  List.insertionSort (fun a b => lexLe a.name.data b.name.data = true) apps

/-! ## Helper lemmas -/

theorem containsSub_iff (needle hay : List Char) :
    containsSub needle hay = true ↔ needle <:+: hay := by
  induction hay with
  | nil =>
    simp [containsSub, List.infix_nil, List.isEmpty_iff]
  | cons c cs ih =>
    simp [containsSub, List.infix_cons_iff, ih, List.isPrefixOf_iff_prefix,
      Bool.or_eq_true]

theorem containsSub_singleton (c : Char) (l : List Char) :
    containsSub [c] l = true ↔ c ∈ l := by
  rw [containsSub_iff]
  constructor
  · intro h
    exact h.subset (List.mem_singleton_self c)
  · intro h
    obtain ⟨s, t, rfl⟩ := List.append_of_mem h
    exact ⟨s, t, by simp⟩

theorem pyIn_iff_infix (needle hay : String) :
    pyIn needle hay = true ↔ needle.data <:+: hay.data :=
  containsSub_iff needle.data hay.data

/-! ## C1: timeout behaviour of the remote command runner -/

/-- C1 counterexample: with a timed-out call and any outputs, `run` does not
return the empty string — the `TimeoutError` from `asyncio.wait_for`
escapes, since `DokkuClient.run` has no exception handler. -/
theorem run_timeout_counterexample :
    run true "" "" = RunResult.timeout_raised ∧
    run true "" "" ≠ RunResult.ok "" := by
  constructor
  · rfl
  · decide

/-- C1 (amended): for every command output pair, a timed-out `run_fast`
call returns the empty string, while a timed-out `run` call propagates the
timeout error to its caller instead of returning the empty string. -/
theorem run_fast_timeout_empty_run_raises :
    ∀ stdoutS stderrS : String,
      run_fast true stdoutS stderrS = "" ∧
      run true stdoutS stderrS = RunResult.timeout_raised := by
  intro _ _
  exact ⟨rfl, rfl⟩

/-! ## C6: certificate status colors -/

/-- A certificate carrying a given `days_until_expiry`. -/
def certWithDays (d : Int) : SSLCertificate :=
  { app_name := "app", expiry_date := "", days_until_expiry := d,
    days_until_renewal := 0 }

/-- C6: `status_color` classifies purely by `days_until_expiry`: green iff
more than 60 days, yellow iff in (30, 60], orange iff in (7, 30], red iff
at most 7; in particular 61 → green, 60 → yellow, 31 → yellow,
30 → orange, 8 → orange, 7 → red, 0 → red. -/
theorem ssl_status_color_spec :
    (∀ c : SSLCertificate,
      (c.status_color = "green" ↔ 60 < c.days_until_expiry) ∧
      (c.status_color = "yellow" ↔
        30 < c.days_until_expiry ∧ c.days_until_expiry ≤ 60) ∧
      (c.status_color = "orange" ↔
        7 < c.days_until_expiry ∧ c.days_until_expiry ≤ 30) ∧
      (c.status_color = "red" ↔ c.days_until_expiry ≤ 7)) ∧
    (certWithDays 61).status_color = "green" ∧
    (certWithDays 60).status_color = "yellow" ∧
    (certWithDays 31).status_color = "yellow" ∧
    (certWithDays 30).status_color = "orange" ∧
    (certWithDays 8).status_color = "orange" ∧
    (certWithDays 7).status_color = "red" ∧
    (certWithDays 0).status_color = "red" := by
  refine ⟨fun c => ?_, rfl, rfl, rfl, rfl, rfl, rfl, rfl⟩
  unfold SSLCertificate.status_color
  by_cases h1 : c.days_until_expiry > 60 <;>
    by_cases h2 : c.days_until_expiry > 30 <;>
      by_cases h3 : c.days_until_expiry > 7 <;>
        simp [h1, h2, h3] <;> omega

/-! ## C10: the container-name singleton on empty runtime output -/

/-- C10: when the container runtime reports no containers (empty decoded
output), `_get_container_names` returns the one-element list `[""]`, never
the empty list; the log-streaming guard then returns early, while the
docker start action splats the singleton into its argument vector,
producing `["docker", "start", ""]`. -/
theorem container_names_empty_output :
    (∀ out : String, pyStrip out = "" → _get_container_names out = [""]) ∧
    ([""] : List String) ≠ [] ∧
    logs_stream_early_return (_get_container_names "") = true ∧
    _app_start_docker_argv (_get_container_names "") = ["docker", "start", ""] := by
  refine ⟨fun out h => ?_, by decide, by decide, by decide⟩
  unfold _get_container_names
  rw [h]
  decide

/-- C10 witness: the empty output itself. -/
theorem container_names_empty_output_witness :
    _get_container_names "" = [""] :=
  container_names_empty_output.1 "" (by decide)

/-! ## C4: environment-variable sensitivity and masking -/

theorem masked_value_cases (e : EnvVar) :
    (e.is_sensitive = true ∨ 50 < e.value.length →
      e.masked_value = "••••••••") ∧
    (e.is_sensitive = false ∧ e.value.length ≤ 50 →
      e.masked_value = e.value) ∧
    (e.masked_value = "••••••••" ∨ e.masked_value = e.value) := by
  by_cases hs : e.is_sensitive <;>
    by_cases hl : e.value.length > 50 <;>
      simp [EnvVar.masked_value, hs, hl]

/-- C4: `is_sensitive` holds exactly when the key contains one of the fixed
keywords as a case-insensitive substring, and the masked display is the
fixed placeholder exactly when the variable is sensitive or its value
exceeds 50 characters, the raw value otherwise — never a partial reveal. -/
theorem env_var_sensitivity_masking :
    ∀ key value : String,
      ((mkEnvVarDocker key value).is_sensitive = true ↔
        ∃ s ∈ sensitive_keys, s.data <:+: (pyLower key).data) ∧
      ((mkEnvVarDocker key value).is_sensitive = true ∨ 50 < value.length →
        (mkEnvVarDocker key value).masked_value = "••••••••") ∧
      ((mkEnvVarDocker key value).is_sensitive = false ∧ value.length ≤ 50 →
        (mkEnvVarDocker key value).masked_value = value) ∧
      ((mkEnvVarDocker key value).masked_value = "••••••••" ∨
        (mkEnvVarDocker key value).masked_value = value) := by
  intro key value
  have hm := masked_value_cases (mkEnvVarDocker key value)
  refine ⟨?_, hm.1, hm.2.1, hm.2.2⟩
  simp only [mkEnvVarDocker, List.any_eq_true, pyIn_iff_infix]

/-- C4 witness: a sensitive key is masked, a short plain key is not. -/
theorem env_var_sensitivity_masking_witness :
    (mkEnvVarDocker "DB_PASSWORD" "hunter2").masked_value = "••••••••" ∧
    (mkEnvVarDocker "HOME_DIR" "x").masked_value = "x" := by
  constructor
  · exact (env_var_sensitivity_masking "DB_PASSWORD" "hunter2").2.1
      (Or.inl (by decide))
  · exact (env_var_sensitivity_masking "HOME_DIR" "x").2.2.1
      ⟨by decide, by decide⟩

/-! ## C8: service connection-string masking -/

theorem splitOnChar_no_sep (sep : Char) (l : List Char) (h : sep ∉ l) :
    splitOnChar sep l = [l] := by
  induction l with
  | nil => rfl
  | cons c cs ih =>
    have hc : ¬c = sep := fun hh => h (hh ▸ List.mem_cons_self c cs)
    have hcs : sep ∉ cs := fun hh => h (List.mem_cons_of_mem c hh)
    simp [splitOnChar, hc, ih hcs]

theorem splitOnChar_append (sep : Char) (pre rest : List Char) (h : sep ∉ pre) :
    splitOnChar sep (pre ++ sep :: rest) = pre :: splitOnChar sep rest := by
  induction pre with
  | nil => simp [splitOnChar]
  | cons c cs ih =>
    have hc : ¬c = sep := fun hh => h (hh ▸ List.mem_cons_self c cs)
    have hcs : sep ∉ cs := fun hh => h (List.mem_cons_of_mem c hh)
    simp [splitOnChar, hc, ih hcs]

theorem pyIn_single_of_mem (c : Char) (n s : String)
    (hn : n.data = [c]) (hm : c ∈ s.data) : pyIn n s = true := by
  unfold pyIn
  rw [hn]
  exact (containsSub_singleton c s.data).mpr hm

/-- C8 counterexample: for `user@host:5432` the colon comes after the
at-sign, so the claim requires the whole string to be replaced by the
placeholder, yet the code reveals `host:5432`; and for a string whose
prefix before the at-sign already equals the bullet run, the displayed
form is exactly the unmasked original. -/
theorem masked_dsn_counterexample :
    ({ name := "db", type := "postgres", version := "16", status := "running",
       dsn := "user@host:5432" } : Service).masked_dsn = "•••••••@host:5432" ∧
    "•••••••@host:5432" ≠ "••••••••" ∧
    ({ name := "c", type := "redis", version := "7", status := "running",
       dsn := "•••••••@ho:st" } : Service).masked_dsn = "•••••••@ho:st" := by
  refine ⟨by decide, by decide, by decide⟩

/-- C8 (amended): the masked form is the fixed placeholder unless the
string contains a colon anywhere and exactly one at-sign; in that case the
portion before the at-sign is replaced by a seven-bullet prefix and the
portion after the at-sign is revealed. The colon may lie on either side of
the at-sign, and the displayed form can coincide with the original exactly
when the part before the at-sign already equals the bullet prefix. -/
theorem masked_dsn_spec :
    (∀ svc : Service,
      pyIn ":" svc.dsn = false ∨ pyIn "@" svc.dsn = false →
      svc.masked_dsn = "••••••••") ∧
    (∀ (svc : Service) (pre post : String),
      svc.dsn = pre ++ "@" ++ post →
      '@' ∉ pre.data → '@' ∉ post.data →
      ':' ∈ pre.data ∨ ':' ∈ post.data →
      svc.masked_dsn = "•••••••@" ++ post) := by
  constructor
  · intro svc h
    unfold Service.masked_dsn
    rcases h with h | h <;> simp [h]
  · intro svc pre post hdsn hpre hpost hcolon
    have hdata : svc.dsn.data = pre.data ++ '@' :: post.data := by
      rw [hdsn, String.data_append, String.data_append]
      have : ("@" : String).data = ['@'] := by decide
      simp [this]
    have hat : pyIn "@" svc.dsn = true := by
      refine pyIn_single_of_mem '@' "@" svc.dsn (by decide) ?_
      rw [hdata]
      exact List.mem_append.mpr (Or.inr (List.mem_cons_self _ _))
    have hcol : pyIn ":" svc.dsn = true := by
      refine pyIn_single_of_mem ':' ":" svc.dsn (by decide) ?_
      rw [hdata]
      rcases hcolon with h | h
      · exact List.mem_append.mpr (Or.inl h)
      · exact List.mem_append.mpr (Or.inr (List.mem_cons_of_mem _ h))
    unfold Service.masked_dsn
    rw [hcol, hat, hdata]
    rw [splitOnChar_append '@' pre.data post.data hpre,
      splitOnChar_no_sep '@' post.data hpost]
    simp
    rfl

/-- C8 witness for the amended statement: a string with no colon is fully
masked; `u:p@h` reveals only the host part. -/
theorem masked_dsn_spec_witness :
    ({ name := "svc", type := "redis", version := "7", status := "running",
       dsn := "nocolon@x" } : Service).masked_dsn = "••••••••" ∧
    ({ name := "svc", type := "redis", version := "7", status := "running",
       dsn := "u:p@h" } : Service).masked_dsn = "•••••••@h" := by
  constructor
  · exact masked_dsn_spec.1 _ (Or.inl (by decide))
  · exact masked_dsn_spec.2 _ "u:p" "h" (by decide) (by decide) (by decide)
      (Or.inl (by decide))

/-! ## C7: domain-list parsing -/

/-- C7: the example line yields exactly the two domain tokens, and any
input in which no line contains the marker phrase yields the empty list,
not an error. -/
theorem parse_domains_spec :
    _parse_domains "Domains app vhosts: foo.example.com bar.example.com" =
      ["foo.example.com", "bar.example.com"] ∧
    (∀ output : String,
      (∀ line ∈ splitLines output, pyIn "Domains app vhosts:" line = false) →
      _parse_domains output = []) := by
  constructor
  · decide
  · intro output h
    unfold _parse_domains
    generalize hls : splitLines output = ls at h ⊢
    clear hls
    induction ls with
    | nil => rfl
    | cons l ls ih =>
      have hl := h l (List.mem_cons_self _ _)
      have hrest := fun line hm => h line (List.mem_cons_of_mem _ hm)
      simpa [hl] using ih hrest

/-- C7 witness: marker-free input parses to the empty list. -/
theorem parse_domains_spec_witness :
    _parse_domains "no domains reported" = [] :=
  parse_domains_spec.2 "no domains reported" (by decide)

/-! ## C5: derived web URL on the four read paths -/

/-- C5 counterexample: the SSH listing path builds `web_url` from the app
name and a hard-coded domain suffix even though the domain list is empty,
where the claim requires the empty string. -/
theorem ssh_listing_web_url_counterexample :
    _get_apps_from_ssh "=====> My Apps\napp-one" =
      [{ name := "app-one", status := .UNKNOWN, container_count := 0,
         domains := [], created_at := "", deploy_source := "",
         web_url := "https://app-one.brewbytes.dev" }] ∧
    "https://app-one.brewbytes.dev" ≠ "" := by
  exact ⟨by decide, by decide⟩

/-- C5 (amended): on the local detail, SSH detail and local listing paths
the web URL equals https:// plus the first domain, and the empty string
when the domain list is empty; on the SSH listing path every application
instead carries an empty domain list and
`web_url = "https://" ++ name ++ ".brewbytes.dev"`. -/
theorem web_url_from_primary_domain :
    (∀ (name : String) (status : AppStatus) (vhostLines : List String)
        (clOut : String),
      (_app_info_docker name status vhostLines clOut).web_url =
        match (_app_info_docker name status vhostLines clOut).domains with
        | [] => ""
        | d :: _ => "https://" ++ d) ∧
    (∀ (name : String) (status : AppStatus) (dOut pOut gOut : String),
      (_app_info_ssh name status dOut pOut gOut).web_url =
        match (_app_info_ssh name status dOut pOut gOut).domains with
        | [] => ""
        | d :: _ => "https://" ++ d) ∧
    (∀ (records : List ContainerRecord) (all_dirs : List String)
        (vhost : String → List String),
      ∀ a ∈ _get_apps_from_docker records all_dirs vhost,
        a.web_url =
          match a.domains with
          | [] => ""
          | d :: _ => "https://" ++ d) ∧
    (∀ output : String, ∀ a ∈ _get_apps_from_ssh output,
      a.domains = [] ∧
      a.web_url = "https://" ++ a.name ++ ".brewbytes.dev") := by
  refine ⟨fun _ _ _ _ => rfl, fun _ _ _ _ _ => rfl, ?_, ?_⟩
  · intro records all_dirs vhost a ha
    unfold _get_apps_from_docker at ha
    rw [List.mem_insertionSort] at ha
    obtain ⟨nm, _, hsome⟩ := List.mem_filterMap.mp ha
    dsimp only at hsome
    split at hsome
    · exact absurd hsome (by simp)
    · cases hsome
      rfl
  · intro output a ha
    obtain ⟨line, _, hsome⟩ := List.mem_filterMap.mp ha
    dsimp only at hsome
    split at hsome
    · exact absurd hsome (by simp)
    · cases hsome
      exact ⟨rfl, rfl⟩

/-- C5 witness for the amended statement: the app the SSH listing builds
from one name line has no domains and the name-derived URL. -/
theorem web_url_from_primary_domain_witness :
    ({ name := "app-one", status := .UNKNOWN, container_count := 0,
       domains := [], created_at := "", deploy_source := "",
       web_url := "https://app-one.brewbytes.dev" } : App).domains = [] ∧
    ({ name := "app-one", status := .UNKNOWN, container_count := 0,
       domains := [], created_at := "", deploy_source := "",
       web_url := "https://app-one.brewbytes.dev" } : App).web_url =
      "https://" ++ "app-one" ++ ".brewbytes.dev" :=
  web_url_from_primary_domain.2.2.2 "=====> My Apps\napp-one" _ (by decide)

/-! ## C3: config-set shell escaping -/

theorem shUnquoteAux_sq_escape (cs : List Char) :
    shUnquoteAux .sq (escapeChars cs ++ ['\x27']) = cs := by
  induction cs with
  | nil => rfl
  | cons c cs ih =>
    by_cases hc : c = '\x27'
    · subst hc
      show '\x27' :: shUnquoteAux .sq (escapeChars cs ++ ['\x27']) =
        '\x27' :: cs
      rw [ih]
    · have h1 : escapeChars (c :: cs) = c :: escapeChars cs := by
        simp [escapeChars, hc]
      rw [h1]
      have h2 : shUnquoteAux .sq (c :: (escapeChars cs ++ ['\x27'])) =
          c :: shUnquoteAux .sq (escapeChars cs ++ ['\x27']) := by
        simp [shUnquoteAux, hc]
      rw [List.cons_append, h2, ih]

/-- C3: the escaping `value.replace("'", "'\"'\"'")` is correct: POSIX
shell quote removal on the composed single-quoted value token returns
exactly the original value, for every value string; the very same token is
the one embedded in the argument composed on the local (subprocess) path
and in the command string composed on the remote (SSH) path. -/
theorem config_set_escaping_roundtrip :
    ∀ (restart : Bool) (app_name key value : String),
      shUnquote ("\x27" ++ escapeValue value ++ "\x27") = value ∧
      config_set_docker_arg key value =
        key ++ "=" ++ ("\x27" ++ escapeValue value ++ "\x27") ∧
      config_set_ssh_command restart app_name key value =
        "config:set " ++ (if restart then "" else "--no-restart") ++ " " ++
          app_name ++ " " ++ key ++ "=" ++
          ("\x27" ++ escapeValue value ++ "\x27") := by
  intro restart app_name key value
  have hq : ("\x27" : String).data = ['\x27'] := by decide
  refine ⟨?_, ?_, ?_⟩
  · unfold shUnquote
    have hdata : ("\x27" ++ escapeValue value ++ "\x27").data =
        '\x27' :: (escapeChars value.data ++ ['\x27']) := by
      rw [String.data_append, String.data_append, hq]
      have h2 : (escapeValue value).data = escapeChars value.data := rfl
      rw [h2]
      simp
    rw [hdata]
    have h3 : shUnquoteAux .unq ('\x27' :: (escapeChars value.data ++ ['\x27'])) =
        shUnquoteAux .sq (escapeChars value.data ++ ['\x27']) := rfl
    rw [h3, shUnquoteAux_sq_escape]
    rfl
  · apply String.ext
    have h5 : ("=\x27" : String).data = ['=', '\x27'] := by decide
    simp [config_set_docker_arg, String.data_append, h5, hq]
  · apply String.ext
    have h5 : ("=\x27" : String).data = ['=', '\x27'] := by decide
    simp [config_set_ssh_command, String.data_append, h5, hq]

/-! ## C2: container-state aggregation -/

/-- The normalised states contributed to one app name, in report order. -/
def statesFor (name : String) (records : List ContainerRecord) : List String :=
  (records.filter (fun r => r.name == name)).map normalize_state

/-- The per-name effect of one aggregation-loop iteration when the name is
already in the dict: the overwrite rules of client.py lines 213-218. -/
def step1 (cur s : String) : String :=
  if s = "restarting" then s
  else if s = "starting" ∧ cur ∉ (["restarting"] : List String) then s
  else if s = "running" ∧ cur ∉ (["restarting", "starting"] : List String) then s
  else cur

theorem alistGet_set_self (m : List (String × String)) (k v : String) :
    alistGet? (alistSet m k v) k = some v := by
  induction m with
  | nil => simp [alistSet, alistGet?, List.find?]
  | cons p rest ih =>
    by_cases h : p.1 = k
    · simp [alistSet, h, alistGet?, List.find?]
    · have hb : (p.1 == k) = false := by simp [h]
      simp only [alistSet]
      rw [if_neg h]
      simpa [alistGet?, List.find?, hb] using ih

theorem alistGet_set_other (m : List (String × String)) (k k0 v : String)
    (h : k0 ≠ k) : alistGet? (alistSet m k v) k0 = alistGet? m k0 := by
  have hb : (k == k0) = false := by simp [Ne.symm h]
  induction m with
  | nil => simp [alistSet, alistGet?, List.find?, hb]
  | cons p rest ih =>
    by_cases hp : p.1 = k
    · have hb2 : (p.1 == k0) = false := by simp [hp, Ne.symm h]
      simp [alistSet, hp, alistGet?, List.find?, hb, hb2]
    · simp only [alistSet]
      rw [if_neg hp]
      by_cases hk0 : p.1 = k0
      · simp [alistGet?, List.find?, hk0]
      · have hb3 : (p.1 == k0) = false := by simp [hk0]
        simpa [alistGet?, List.find?, hb3] using ih

theorem step_get_other (m : List (String × String)) (r : ContainerRecord)
    (name : String) (h : r.name ≠ name) :
    alistGet? (step_app_status m r) name = alistGet? m name := by
  unfold step_app_status
  have hne : name ≠ r.name := fun hh => h hh.symm
  cases alistGet? m r.name with
  | none => simpa using alistGet_set_other m r.name name _ hne
  | some cur =>
    dsimp only
    split
    · exact alistGet_set_other m r.name name _ hne
    · split
      · exact alistGet_set_other m r.name name _ hne
      · split
        · exact alistGet_set_other m r.name name _ hne
        · rfl

theorem step_get_self_none (m : List (String × String)) (r : ContainerRecord)
    (h : alistGet? m r.name = none) :
    alistGet? (step_app_status m r) r.name = some (normalize_state r) := by
  unfold step_app_status
  rw [h]
  exact alistGet_set_self m r.name _

theorem step_get_self_some (m : List (String × String)) (r : ContainerRecord)
    (cur : String) (h : alistGet? m r.name = some cur) :
    alistGet? (step_app_status m r) r.name =
      some (step1 cur (normalize_state r)) := by
  unfold step_app_status step1
  rw [h]
  dsimp only
  split
  · rw [alistGet_set_self]
  · split
    · rw [alistGet_set_self]
    · split
      · rw [alistGet_set_self]
      · rw [h]

theorem build_lookup (name : String) :
    ∀ (records : List ContainerRecord) (m : List (String × String)),
      alistGet? (records.foldl step_app_status m) name =
        match alistGet? m name with
        | none =>
          match statesFor name records with
          | [] => none
          | s :: ss => some (ss.foldl step1 s)
        | some cur => some ((statesFor name records).foldl step1 cur) := by
  intro records
  induction records with
  | nil =>
    intro m
    cases h : alistGet? m name <;> simp [statesFor, h]
  | cons r rs ih =>
    intro m
    by_cases hn : r.name = name
    · subst hn
      have hstates : statesFor r.name (r :: rs) =
          normalize_state r :: statesFor r.name rs := by
        simp [statesFor]
      cases h : alistGet? m r.name with
      | none =>
        rw [List.foldl_cons, ih, step_get_self_none m r h, hstates]
      | some cur =>
        rw [List.foldl_cons, ih, step_get_self_some m r cur h, hstates]
        simp [List.foldl_cons]
    · have hstates : statesFor name (r :: rs) = statesFor name rs := by
        simp [statesFor, hn]
      rw [List.foldl_cons, ih, step_get_other m r name hn, hstates]

theorem step1_id (cur s : String) (h1 : s ≠ "restarting")
    (h2 : s ≠ "starting") (h3 : s ≠ "running") : step1 cur s = cur := by
  simp [step1, h1, h2, h3]

theorem step1_restarting_left (s : String) :
    step1 "restarting" s = "restarting" := by
  by_cases h : s = "restarting"
  · subst h
    simp [step1]
  · simp [step1, h]

theorem step1_restarting_right (cur : String) :
    step1 cur "restarting" = "restarting" := by
  simp [step1]

theorem step1_range (cur s : String) : step1 cur s = s ∨ step1 cur s = cur := by
  unfold step1
  split
  · exact Or.inl rfl
  · split
    · exact Or.inl rfl
    · split
      · exact Or.inl rfl
      · exact Or.inr rfl

theorem foldl_step1_restarting_absorb (ss : List String) :
    ss.foldl step1 "restarting" = "restarting" := by
  induction ss with
  | nil => rfl
  | cons s ss ih => rw [List.foldl_cons, step1_restarting_left, ih]

theorem step1_starting_left (s : String) (h : s ≠ "restarting") :
    step1 "starting" s = "starting" := by
  by_cases h2 : s = "starting"
  · subst h2
    simp [step1]
  · by_cases h3 : s = "running"
    · subst h3
      simp [step1]
    · simp [step1, h, h2, h3]

theorem foldl_step1_starting_absorb (ss : List String)
    (h : "restarting" ∉ ss) : ss.foldl step1 "starting" = "starting" := by
  induction ss with
  | nil => rfl
  | cons s ss ih =>
    have hs : s ≠ "restarting" := fun hh => h (hh ▸ List.mem_cons_self s ss)
    rw [List.foldl_cons, step1_starting_left s hs,
      ih (fun hh => h (List.mem_cons_of_mem s hh))]

theorem step1_running_left (s : String) (h1 : s ≠ "restarting")
    (h2 : s ≠ "starting") : step1 "running" s = "running" := by
  by_cases h3 : s = "running"
  · subst h3
    simp [step1]
  · simp [step1, h1, h2, h3]

theorem foldl_step1_running_absorb (ss : List String)
    (h1 : "restarting" ∉ ss) (h2 : "starting" ∉ ss) :
    ss.foldl step1 "running" = "running" := by
  induction ss with
  | nil => rfl
  | cons s ss ih =>
    have hs1 : s ≠ "restarting" := fun hh => h1 (hh ▸ List.mem_cons_self s ss)
    have hs2 : s ≠ "starting" := fun hh => h2 (hh ▸ List.mem_cons_self s ss)
    rw [List.foldl_cons, step1_running_left s hs1 hs2,
      ih (fun hh => h1 (List.mem_cons_of_mem s hh))
        (fun hh => h2 (List.mem_cons_of_mem s hh))]

theorem step1_starting_right (cur : String) (h : cur ≠ "restarting") :
    step1 cur "starting" = "starting" := by
  simp [step1, h]

theorem step1_running_right (cur : String) (h1 : cur ≠ "restarting")
    (h2 : cur ≠ "starting") : step1 cur "running" = "running" := by
  simp [step1, h1, h2]

theorem foldl_step1_id (ss : List String) : ∀ s : String,
    (∀ x ∈ ss, x ≠ "restarting" ∧ x ≠ "starting" ∧ x ≠ "running") →
    ss.foldl step1 s = s := by
  induction ss with
  | nil => intro s _; rfl
  | cons t ts ih =>
    intro s h
    obtain ⟨h1, h2, h3⟩ := h t (List.mem_cons_self t ts)
    rw [List.foldl_cons, step1_id s t h1 h2 h3]
    exact ih s (fun x hx => h x (List.mem_cons_of_mem t hx))

theorem foldl_step1_mem_restarting (ss : List String) : ∀ s : String,
    "restarting" ∈ s :: ss → ss.foldl step1 s = "restarting" := by
  induction ss with
  | nil =>
    intro s h
    rcases List.mem_cons.mp h with h | h
    · exact h.symm
    · exact absurd h (List.not_mem_nil _)
  | cons t ts ih =>
    intro s h
    rw [List.foldl_cons]
    rcases List.mem_cons.mp h with h | h
    · rw [← h, step1_restarting_left]
      exact foldl_step1_restarting_absorb ts
    · rcases List.mem_cons.mp h with h | h
      · rw [← h, step1_restarting_right]
        exact foldl_step1_restarting_absorb ts
      · exact ih (step1 s t) (List.mem_cons_of_mem _ h)

theorem foldl_step1_mem_starting (ss : List String) : ∀ s : String,
    "restarting" ∉ s :: ss → "starting" ∈ s :: ss →
    ss.foldl step1 s = "starting" := by
  induction ss with
  | nil =>
    intro s _ h2
    rcases List.mem_cons.mp h2 with h | h
    · exact h.symm
    · exact absurd h (List.not_mem_nil _)
  | cons t ts ih =>
    intro s h1 h2
    have hs : s ≠ "restarting" := fun hh => h1 (hh ▸ List.mem_cons_self s _)
    have ht : t ≠ "restarting" := fun hh =>
      h1 (List.mem_cons_of_mem s (hh ▸ List.mem_cons_self t ts))
    have hts : "restarting" ∉ ts := fun hh =>
      h1 (List.mem_cons_of_mem s (List.mem_cons_of_mem t hh))
    rw [List.foldl_cons]
    rcases List.mem_cons.mp h2 with h | h
    · rw [← h, step1_starting_left t ht]
      exact foldl_step1_starting_absorb ts hts
    · rcases List.mem_cons.mp h with h | h
      · rw [← h, step1_starting_right s hs]
        exact foldl_step1_starting_absorb ts hts
      · refine ih (step1 s t) ?_ (List.mem_cons_of_mem _ h)
        intro hh
        rcases List.mem_cons.mp hh with hh | hh
        · rcases step1_range s t with he | he <;> rw [he] at hh
          · exact ht hh.symm
          · exact hs hh.symm
        · exact hts hh

theorem foldl_step1_mem_running (ss : List String) : ∀ s : String,
    "restarting" ∉ s :: ss → "starting" ∉ s :: ss → "running" ∈ s :: ss →
    ss.foldl step1 s = "running" := by
  induction ss with
  | nil =>
    intro s _ _ h3
    rcases List.mem_cons.mp h3 with h | h
    · exact h.symm
    · exact absurd h (List.not_mem_nil _)
  | cons t ts ih =>
    intro s h1 h2 h3
    have hs1 : s ≠ "restarting" := fun hh => h1 (hh ▸ List.mem_cons_self s _)
    have hs2 : s ≠ "starting" := fun hh => h2 (hh ▸ List.mem_cons_self s _)
    have ht1 : t ≠ "restarting" := fun hh =>
      h1 (List.mem_cons_of_mem s (hh ▸ List.mem_cons_self t ts))
    have ht2 : t ≠ "starting" := fun hh =>
      h2 (List.mem_cons_of_mem s (hh ▸ List.mem_cons_self t ts))
    have hts1 : "restarting" ∉ ts := fun hh =>
      h1 (List.mem_cons_of_mem s (List.mem_cons_of_mem t hh))
    have hts2 : "starting" ∉ ts := fun hh =>
      h2 (List.mem_cons_of_mem s (List.mem_cons_of_mem t hh))
    rw [List.foldl_cons]
    rcases List.mem_cons.mp h3 with h | h
    · rw [← h, step1_running_left t ht1 ht2]
      exact foldl_step1_running_absorb ts hts1 hts2
    · rcases List.mem_cons.mp h with h | h
      · rw [← h, step1_running_right s hs1 hs2]
        exact foldl_step1_running_absorb ts hts1 hts2
      · refine ih (step1 s t) ?_ ?_ (List.mem_cons_of_mem _ h)
        · intro hh
          rcases List.mem_cons.mp hh with hh | hh
          · rcases step1_range s t with he | he <;> rw [he] at hh
            · exact ht1 hh.symm
            · exact hs1 hh.symm
          · exact hts1 hh
        · intro hh
          rcases List.mem_cons.mp hh with hh | hh
          · rcases step1_range s t with he | he <;> rw [he] at hh
            · exact ht2 hh.symm
            · exact hs2 hh.symm
          · exact hts2 hh

theorem status_of_string_cases (s : String) (h1 : s ≠ "running")
    (h2 : s ≠ "restarting") (h3 : s ≠ "starting") :
    status_of_string s = .STOPPED ∨ status_of_string s = .UNKNOWN := by
  unfold status_of_string
  rw [if_neg h1, if_neg h2, if_neg h3]
  by_cases h4 : s = "exited" ∨ s = "dead" ∨ s = "stopped"
  · rw [if_pos h4]
    exact Or.inl rfl
  · rw [if_neg h4]
    exact Or.inr rfl

/-- C2 counterexample: the same multiset of container records, reported in
the two possible orders, aggregates to UNKNOWN in one order and STOPPED in
the other — the claimed STOPPED/CRASHED > UNKNOWN priority is not applied
deterministically (for states outside restarting/starting/running the
first-reported state wins). -/
theorem aggregation_order_counterexample :
    app_status_for
        [⟨"app-three", "paused", ""⟩, ⟨"app-three", "exited", ""⟩]
        "app-three" = .UNKNOWN ∧
    app_status_for
        [⟨"app-three", "exited", ""⟩, ⟨"app-three", "paused", ""⟩]
        "app-three" = .STOPPED ∧
    ([⟨"app-three", "paused", ""⟩, ⟨"app-three", "exited", ""⟩] :
        List ContainerRecord).Perm
      [⟨"app-three", "exited", ""⟩, ⟨"app-three", "paused", ""⟩] := by
  refine ⟨by decide, by decide, ?_⟩
  exact List.Perm.swap _ _ _

/-- C2 (amended): aggregation is deterministic for the top three
priorities — a restarting container forces RESTARTING; otherwise a
starting container forces STARTING; otherwise a running container forces
RUNNING — and an application none of whose reported containers normalises
to running, restarting or starting (in particular one with no containers,
whose directory merely exists) resolves to STOPPED or UNKNOWN, never
RUNNING. Among the remaining states the first-reported one wins, so the
relative order of STOPPED/CRASHED versus UNKNOWN is report-order
dependent. -/
theorem app_status_aggregation :
    ∀ (records : List ContainerRecord) (name : String),
      (statesFor name records = [] →
        app_status_for records name = .STOPPED) ∧
      ((∀ s ∈ statesFor name records,
          s ≠ "running" ∧ s ≠ "restarting" ∧ s ≠ "starting") →
        app_status_for records name ≠ .RUNNING ∧
        (app_status_for records name = .STOPPED ∨
          app_status_for records name = .UNKNOWN)) ∧
      ("restarting" ∈ statesFor name records →
        app_status_for records name = .RESTARTING) ∧
      ("restarting" ∉ statesFor name records →
        "starting" ∈ statesFor name records →
        app_status_for records name = .STARTING) ∧
      ("restarting" ∉ statesFor name records →
        "starting" ∉ statesFor name records →
        "running" ∈ statesFor name records →
        app_status_for records name = .RUNNING) := by
  intro records name
  have key : app_status_for records name =
      match statesFor name records with
      | [] => AppStatus.STOPPED
      | s :: ss => status_of_string (ss.foldl step1 s) := by
    unfold app_status_for build_app_status
    rw [build_lookup name records []]
    have hnil : alistGet? [] name = none := rfl
    rw [hnil]
    cases statesFor name records with
    | nil => decide
    | cons s ss => rfl
  refine ⟨?_, ?_, ?_, ?_, ?_⟩
  · intro h
    rw [key, h]
  · intro h
    rw [key]
    cases hsf : statesFor name records with
    | nil => exact ⟨by decide, Or.inl rfl⟩
    | cons s ss =>
      rw [hsf] at h
      obtain ⟨hr, hrs, hst⟩ := h s (List.mem_cons_self s ss)
      dsimp only
      rw [foldl_step1_id ss s (fun x hx => by
        obtain ⟨a, b, c⟩ := h x (List.mem_cons_of_mem s hx)
        exact ⟨b, c, a⟩)]
      have hcase := status_of_string_cases s hr hrs hst
      constructor
      · rcases hcase with hc | hc <;> rw [hc] <;> decide
      · exact hcase
  · intro hmem
    rw [key]
    cases hsf : statesFor name records with
    | nil =>
      rw [hsf] at hmem
      exact absurd hmem (List.not_mem_nil _)
    | cons s ss =>
      rw [hsf] at hmem
      dsimp only
      rw [foldl_step1_mem_restarting ss s hmem]
      decide
  · intro hnot hmem
    rw [key]
    cases hsf : statesFor name records with
    | nil =>
      rw [hsf] at hmem
      exact absurd hmem (List.not_mem_nil _)
    | cons s ss =>
      rw [hsf] at hmem hnot
      dsimp only
      rw [foldl_step1_mem_starting ss s hnot hmem]
      decide
  · intro hnot1 hnot2 hmem
    rw [key]
    cases hsf : statesFor name records with
    | nil =>
      rw [hsf] at hmem
      exact absurd hmem (List.not_mem_nil _)
    | cons s ss =>
      rw [hsf] at hmem hnot1 hnot2
      dsimp only
      rw [foldl_step1_mem_running ss s hnot1 hnot2 hmem]
      decide

/-- C2 witness: one exited container for `app-three`; the aggregate is not
RUNNING, and is STOPPED or UNKNOWN. -/
theorem app_status_aggregation_witness :
    app_status_for [⟨"app-three", "exited", ""⟩] "app-three" ≠ .RUNNING ∧
    (app_status_for [⟨"app-three", "exited", ""⟩] "app-three" = .STOPPED ∨
      app_status_for [⟨"app-three", "exited", ""⟩] "app-three" = .UNKNOWN) :=
  (app_status_aggregation [⟨"app-three", "exited", ""⟩] "app-three").2.1
    (by decide)

/-! ## C9: docker listing exclusion and deterministic ordering -/

theorem lexLe_iff (a b : List Char) :
    lexLe a b = true ↔ (lexLt a b = true ∨ a = b) := by
  simp [lexLe]

theorem lexLt_trans (a : List Char) : ∀ b c : List Char,
    lexLt a b = true → lexLt b c = true → lexLt a c = true := by
  induction a with
  | nil =>
    intro b c h1 h2
    cases c with
    | nil => cases b <;> simp [lexLt] at h2
    | cons z zs => simp [lexLt]
  | cons x xs ih =>
    intro b c h1 h2
    cases b with
    | nil => simp [lexLt] at h1
    | cons y ys =>
      cases c with
      | nil => simp [lexLt] at h2
      | cons z zs =>
        by_cases hxy : x = y
        · subst hxy
          by_cases hyz : x = z
          · subst hyz
            simp only [lexLt, if_pos rfl] at h1 h2 ⊢
            exact ih ys zs h1 h2
          · simp only [lexLt, if_neg hyz, decide_eq_true_eq] at h2 ⊢
            exact h2
        · by_cases hyz : y = z
          · subst hyz
            simp only [lexLt, if_neg hxy, decide_eq_true_eq] at h1 ⊢
            exact h1
          · simp only [lexLt, if_neg hxy, if_neg hyz,
              decide_eq_true_eq] at h1 h2
            by_cases hxz : x = z
            · subst hxz
              exact absurd (lt_trans h1 h2) (lt_irrefl x)
            · simp only [lexLt, if_neg hxz, decide_eq_true_eq]
              exact lt_trans h1 h2

theorem lexLt_trichot (a : List Char) : ∀ b : List Char,
    lexLt a b = true ∨ a = b ∨ lexLt b a = true := by
  induction a with
  | nil =>
    intro b
    cases b <;> simp [lexLt]
  | cons x xs ih =>
    intro b
    cases b with
    | nil => simp [lexLt]
    | cons y ys =>
      by_cases hxy : x = y
      · subst hxy
        rcases ih ys with h | h | h
        · left
          simpa only [lexLt, if_pos rfl] using h
        · right; left
          rw [h]
        · right; right
          simpa only [lexLt, if_pos rfl] using h
      · rcases lt_trichotomy x y with h | h | h
        · left
          simp only [lexLt, if_neg hxy, decide_eq_true_eq]
          exact h
        · exact absurd h hxy
        · right; right
          have hyx : ¬y = x := fun hh => hxy hh.symm
          simp only [lexLt, if_neg hyx, decide_eq_true_eq]
          exact h

theorem lexLe_total (a b : List Char) :
    lexLe a b = true ∨ lexLe b a = true := by
  rcases lexLt_trichot a b with h | h | h
  · exact Or.inl ((lexLe_iff a b).mpr (Or.inl h))
  · exact Or.inl ((lexLe_iff a b).mpr (Or.inr h))
  · exact Or.inr ((lexLe_iff b a).mpr (Or.inl h))

theorem lexLe_trans (a b c : List Char) (h1 : lexLe a b = true)
    (h2 : lexLe b c = true) : lexLe a c = true := by
  rcases (lexLe_iff a b).mp h1 with h1 | h1
  · rcases (lexLe_iff b c).mp h2 with h2 | h2
    · exact (lexLe_iff a c).mpr (Or.inl (lexLt_trans a b c h1 h2))
    · subst h2
      exact (lexLe_iff a b).mpr (Or.inl h1)
  · subst h1
    exact h2

instance : IsTrans App (fun a b => lexLe a.name.data b.name.data = true) :=
  ⟨fun _ _ _ h1 h2 => lexLe_trans _ _ _ h1 h2⟩

instance : IsTotal App (fun a b => lexLe a.name.data b.name.data = true) :=
  ⟨fun _ _ => lexLe_total _ _⟩

/-- C9: every application in the docker listing has a name outside the
reserved set and not dot-prefixed, and the returned sequence is sorted by
name, so repeated calls on unchanged state produce identical ordering. -/
theorem docker_listing_excludes_and_sorted :
    ∀ (records : List ContainerRecord) (all_dirs : List String)
      (vhost : String → List String),
      (∀ a ∈ _get_apps_from_docker records all_dirs vhost,
        a.name ∉ skip_dirs ∧ pyStartsWith a.name "." = false) ∧
      List.Sorted (fun a b : App => lexLe a.name.data b.name.data = true)
        (_get_apps_from_docker records all_dirs vhost) := by
  intro records all_dirs vhost
  constructor
  · intro a ha
    unfold _get_apps_from_docker at ha
    rw [List.mem_insertionSort] at ha
    obtain ⟨nm, _, hsome⟩ := List.mem_filterMap.mp ha
    dsimp only at hsome
    split at hsome
    · exact absurd hsome (by simp)
    · rename_i hcond
      cases hsome
      refine ⟨fun hmem => hcond (Or.inr hmem), ?_⟩
      cases hpt : pyStartsWith nm "." with
      | false => rfl
      | true => exact absurd (Or.inl hpt) hcond
  · unfold _get_apps_from_docker
    exact List.sorted_insertionSort _ _

/-- C9 witness: with directories `["b-app", ".ssh", "ENV", "a-app"]`, the
listed app `a-app` is neither reserved nor dot-prefixed. -/
theorem docker_listing_excludes_and_sorted_witness :
    ("a-app" : String) ∉ skip_dirs ∧ pyStartsWith "a-app" "." = false := by
  have h := (docker_listing_excludes_and_sorted []
    ["b-app", ".ssh", "ENV", "a-app"] (fun _ => [])).1
  exact h { name := "a-app", status := .STOPPED, container_count := 0,
            domains := [], created_at := "", deploy_source := "",
            web_url := "" } (by decide)

end DokkuDashboard
